import Mathlib

/-!
Verification of the contextual authorization engine (`jsalchemy_auth`).

The Python modules `utils.py`, `auth.py`, `checkers.py` and `traversers.py`
are shallowly embedded below.  Model classes are represented by their table
name (a `String`); the global sentinel model (`None` in the source) is
`Option.none`.  Python tuples of ids become `List Nat`; a Python `set` of
ids is represented by a duplicate-free list built in insertion order (no
theorem below depends on the iteration order of a Python set).  Fallible
Python code (raised exceptions) is embedded with `Except PyErr`.
-/

namespace JsAuth

/-- Python exceptions raised by the embedded operations. -/
inductive PyErr
  | valueError (msg : String)
  | typeError (msg : String)
  | attributeError (msg : String)
  | permissionGrantError (msg : String)
deriving DecidableEq, Repr

/-- `utils.Context`: an immutable `(model, id)` row reference.  The model is
the table name of the model class; `none` stands for the Python `None` model
of the global sentinel context. -/
structure Context where
  model : Option String
  id : Nat
deriving DecidableEq, Repr

/-- The `Context.table` property: the model's table name, or `"global"` when
the model is `None`. -/
def Context.table (c : Context) : String := c.model.getD "global"

/-- `auth.GLOBAL_CONTEXT = Context(id=0, model=None)`. -/
def GLOBAL_CONTEXT : Context := ⟨none, 0⟩

/-- `utils.ContextSet`: a same-model batch of row references.  The source
stores either a model class or (via `Context.__add__`) a table-name string in
the `model` field; both collapse to the table name in this embedding.  The
`ids` field is a Python tuple, embedded as a list. -/
structure ContextSet where
  model : Option String
  ids : List Nat
deriving DecidableEq, Repr

/-- An operand of the Python `+` operators on `Context`/`ContextSet`: another
`Context`, a `ContextSet`, or any other value (a raw id, the fallthrough
branch of both `__add__` methods). -/
inductive CtxVal
  | ctx (c : Context)
  | cset (s : ContextSet)
  | raw (n : Nat)
deriving DecidableEq, Repr

/-- `Context.__add__`: combine with another context, context set or raw id.
The source performs no model comparison and tags the result with `self.table`
(the table-name string), so this operation never fails. -/
def Context.add (c : Context) : CtxVal → ContextSet
  | .cset s => ⟨some c.table, c.id :: s.ids⟩
  | .ctx d => ⟨some c.table, [c.id, d.id]⟩
  | .raw n => ⟨some c.table, [c.id, n]⟩

/-- `ContextSet.__add__`.  For a `ContextSet` operand the models must match
and the id tuples are concatenated.  For a `Context` or raw operand the
source evaluates `self.ids + [other.id]` (resp. `self.ids + [other]`), which
concatenates the `ids` tuple with a list literal and therefore raises
`TypeError` — after the model check in the `Context` branch. -/
def ContextSet.add (s : ContextSet) : CtxVal → Except PyErr ContextSet
  | .cset t =>
    if s.model ≠ t.model then .error (.valueError "ContextSet tables must match")
    else .ok ⟨s.model, s.ids ++ t.ids⟩
  | .ctx c =>
    if s.model ≠ c.model then .error (.valueError "ContextSet models must match")
    else .error (.typeError "can only concatenate tuple to tuple")
  | .raw _ => .error (.typeError "can only concatenate tuple to tuple")

/-- The Python `+` operator on context values, dispatching on the left
operand to `Context.__add__` or `ContextSet.__add__`. -/
def ctxUnion : CtxVal → CtxVal → Except PyErr ContextSet
  | .ctx c, o => .ok (c.add o)
  | .cset s, o => s.add o
  | .raw _, _ => .error (.typeError "unsupported operand types for +")

/-- Insertion into the list representation of a Python set: keep the first
occurrence only. -/
def pySetInsert {α : Type} [DecidableEq α] (l : List α) (a : α) : List α :=
  if a ∈ l then l else l ++ [a]

/-- The `model` attribute read by `ContextSet.join`; a raw value has none and
its access raises `AttributeError`. -/
def CtxVal.modelOf : CtxVal → Except PyErr (Option String)
  | .ctx c => .ok c.model
  | .cset s => .ok s.model
  | .raw _ => .error (.attributeError "int object has no attribute model")

/-- Total variant of `CtxVal.modelOf` for stating properties about argument
lists that contain no raw value. -/
def CtxVal.modelD : CtxVal → Option String
  | .ctx c => c.model
  | .cset s => s.model
  | .raw _ => none

/-- Recognizer for the raw (non-context) operand case. -/
def CtxVal.isRaw : CtxVal → Bool
  | .raw _ => true
  | _ => false

/-- The ids carried by one join argument: the singleton id of a `Context`,
the id tuple of a `ContextSet`, nothing for any other value. -/
def CtxVal.idsOf : CtxVal → List Nat
  | .ctx c => [c.id]
  | .cset s => s.ids
  | .raw _ => []

/-- The ids the loop of `ContextSet.join` accumulates into the Python set
`ids`: `ids.update(context.ids)` for a `ContextSet`, `ids.add(context.id)`
for a `Context`, nothing for any other value. -/
def joinCollect (acc : List Nat) : CtxVal → List Nat
  | .ctx c => pySetInsert acc c.id
  | .cset s => s.ids.foldl pySetInsert acc
  | .raw _ => acc

/-- All ids carried by a list of join arguments, with multiplicity (used only
to state theorems; the source has no such function). -/
def rawIds : List CtxVal → List Nat
  | [] => []
  | v :: vs => v.idsOf ++ rawIds vs

/-- `ContextSet.join(*contexts)`: raises `ValueError` on an empty argument
list or when the set of models of the arguments does not have exactly one
element; otherwise collects all ids into a set, keeps the truthy (nonzero)
ones, and returns the resulting `ContextSet` — or Python `None` when no id
survives the filter. -/
def ContextSet.join (contexts : List CtxVal) : Except PyErr (Option ContextSet) :=
  match contexts with
  | [] => .error (.valueError "ContextSet.join requires at least one context")
  | c₀ :: rest =>
    match (c₀ :: rest).mapM CtxVal.modelOf with
    | .error e => .error e
    | .ok models =>
      if (models.foldl pySetInsert []).length ≠ 1 then
        .error (.valueError "ContextSet.join requires contexts with the same model")
      else
        match c₀.modelOf with
        | .error e => .error e
        | .ok m =>
          let ids := (c₀ :: rest).foldl joinCollect []
          let ret := ids.filter (fun n => n ≠ 0)
          if ret.length ≠ 0 then .ok (some ⟨m, ret⟩) else .ok none

/-! Lemmas about the Python-set representation used by `ContextSet.join`. -/

theorem pySetInsert_mem {α : Type} [DecidableEq α] {l : List α} {a b : α} :
    a ∈ pySetInsert l b ↔ a ∈ l ∨ a = b := by
  unfold pySetInsert
  by_cases h : b ∈ l
  · simp only [if_pos h]
    constructor
    · exact Or.inl
    · rintro (ha | rfl) <;> [exact ha; exact h]
  · simp [if_neg h]

theorem pySetInsert_nodup {α : Type} [DecidableEq α] {l : List α} (b : α)
    (h : l.Nodup) : (pySetInsert l b).Nodup := by
  unfold pySetInsert
  by_cases hb : b ∈ l
  · simpa [hb]
  · simp [hb, List.nodup_append, h]

theorem foldl_pySetInsert_mem {α : Type} [DecidableEq α] (l acc : List α) (a : α) :
    a ∈ l.foldl pySetInsert acc ↔ a ∈ acc ∨ a ∈ l := by
  induction l generalizing acc with
  | nil => simp
  | cons x xs ih =>
    simp only [List.foldl_cons, ih, pySetInsert_mem, List.mem_cons]
    tauto

theorem foldl_pySetInsert_nodup {α : Type} [DecidableEq α] (l : List α)
    {acc : List α} (h : acc.Nodup) : (l.foldl pySetInsert acc).Nodup := by
  induction l generalizing acc with
  | nil => exact h
  | cons x xs ih => exact ih (pySetInsert_nodup x h)

theorem nodup_mem_eq_singleton {α : Type} {d : List α} {m : α}
    (hd : d.Nodup) (hm : ∀ x, x ∈ d ↔ x = m) : d = [m] := by
  cases d with
  | nil => exact absurd ((hm m).mpr rfl) (List.not_mem_nil m)
  | cons a t =>
    have ha : a = m := (hm a).mp (List.mem_cons_self a t)
    subst ha
    have ht : t = [] := by
      cases t with
      | nil => rfl
      | cons b u =>
        have hb : b = a := (hm b).mp (List.mem_cons_of_mem a (List.mem_cons_self b u))
        exact absurd (hb ▸ List.mem_cons_self b u) (List.nodup_cons.mp hd).1
    rw [ht]

theorem foldl_pySetInsert_length_one {α : Type} [DecidableEq α] {l : List α}
    (hne : l ≠ []) :
    (l.foldl pySetInsert []).length = 1 ↔ ∀ x ∈ l, ∀ y ∈ l, x = y := by
  constructor
  · intro h x hx y hy
    obtain ⟨a, ha⟩ := List.length_eq_one.mp h
    have h1 : x = a := by
      have := (foldl_pySetInsert_mem l [] x).mpr (Or.inr hx)
      rw [ha] at this; simpa using this
    have h2 : y = a := by
      have := (foldl_pySetInsert_mem l [] y).mpr (Or.inr hy)
      rw [ha] at this; simpa using this
    rw [h1, h2]
  · intro h
    obtain ⟨m, ms, rfl⟩ := List.exists_cons_of_ne_nil hne
    have hall : ∀ x, x ∈ (m :: ms).foldl pySetInsert [] ↔ x = m := by
      intro x
      rw [foldl_pySetInsert_mem]
      simp only [List.not_mem_nil, false_or]
      constructor
      · intro hx; exact h x hx m (List.mem_cons_self m ms)
      · rintro rfl; exact List.mem_cons_self _ _
    rw [nodup_mem_eq_singleton (foldl_pySetInsert_nodup _ List.nodup_nil) hall]
    rfl

theorem joinCollect_mem {acc : List Nat} {v : CtxVal} {n : Nat} :
    n ∈ joinCollect acc v ↔ n ∈ acc ∨ n ∈ v.idsOf := by
  cases v with
  | ctx c => simp [joinCollect, CtxVal.idsOf, pySetInsert_mem]
  | cset s => simp [joinCollect, CtxVal.idsOf, foldl_pySetInsert_mem]
  | raw k => simp [joinCollect, CtxVal.idsOf]

theorem joinCollect_nodup {acc : List Nat} (v : CtxVal) (h : acc.Nodup) :
    (joinCollect acc v).Nodup := by
  cases v with
  | ctx c => exact pySetInsert_nodup _ h
  | cset s => exact foldl_pySetInsert_nodup _ h
  | raw k => exact h

theorem foldl_joinCollect_mem (args : List CtxVal) (acc : List Nat) (n : Nat) :
    n ∈ args.foldl joinCollect acc ↔ n ∈ acc ∨ n ∈ rawIds args := by
  induction args generalizing acc with
  | nil => simp [rawIds]
  | cons v vs ih =>
    simp only [List.foldl_cons, ih, joinCollect_mem, rawIds, List.mem_append]
    tauto

theorem foldl_joinCollect_nodup (args : List CtxVal) {acc : List Nat}
    (h : acc.Nodup) : (args.foldl joinCollect acc).Nodup := by
  induction args generalizing acc with
  | nil => exact h
  | cons v vs ih => exact ih (joinCollect_nodup v h)

theorem mapM_modelOf_ok {args : List CtxVal} (h : ∀ v ∈ args, v.isRaw = false) :
    args.mapM CtxVal.modelOf = .ok (args.map CtxVal.modelD) := by
  induction args with
  | nil => rfl
  | cons v vs ih =>
    have hv : v.modelOf = .ok v.modelD := by
      cases v with
      | ctx c => rfl
      | cset s => rfl
      | raw k => exact absurd (h (.raw k) (List.mem_cons_self _ _)) (by simp [CtxVal.isRaw])
    rw [List.mapM_cons, hv, ih (fun u hu => h u (List.mem_cons_of_mem v hu))]
    rfl

/-- C6 (counterexample): the union `+` of two `Context` values whose models
differ (`country` vs `city`) does not fail with a model-mismatch error — it
succeeds and returns a `ContextSet`, because `Context.__add__` never compares
the models. -/
theorem c6_context_add_no_model_check :
    ctxUnion (.ctx ⟨some "country", 1⟩) (.ctx ⟨some "city", 2⟩)
        = .ok ⟨some "country", [1, 2]⟩ ∧
      ¬ ∃ e, ctxUnion (.ctx ⟨some "country", 1⟩) (.ctx ⟨some "city", 2⟩) = .error e := by
  refine ⟨rfl, ?_⟩
  rintro ⟨e, he⟩
  simp [ctxUnion, Context.add] at he

/-- C6 (amended): union with a `ContextSet` on the left raises `ValueError`
exactly when the operands carry different models, and two `ContextSet`s with
equal models combine into the concatenated set; however `ContextSet + Context`
with equal models raises `TypeError` (the source concatenates the id tuple
with a list), and `Context + x` performs no model check at all and always
succeeds, tagging the result with the left operand's table name. -/
theorem c6_union_model_mismatch :
    (∀ s t : ContextSet,
      (∃ e, ctxUnion (.cset s) (.cset t) = .error e) ↔ s.model ≠ t.model) ∧
    (∀ s t : ContextSet, s.model = t.model →
      ctxUnion (.cset s) (.cset t) = .ok ⟨s.model, s.ids ++ t.ids⟩) ∧
    (∀ (s : ContextSet) (c : Context), s.model ≠ c.model →
      ctxUnion (.cset s) (.ctx c) = .error (.valueError "ContextSet models must match")) ∧
    (∀ (s : ContextSet) (c : Context), s.model = c.model →
      ctxUnion (.cset s) (.ctx c) = .error (.typeError "can only concatenate tuple to tuple")) ∧
    (∀ (c : Context) (v : CtxVal), ctxUnion (.ctx c) v = .ok (c.add v)) := by
  refine ⟨?_, ?_, ?_, ?_, fun c v => rfl⟩
  · intro s t
    by_cases h : s.model = t.model
    · simp [ctxUnion, ContextSet.add, h]
    · exact ⟨fun _ => h,
        fun _ => ⟨.valueError "ContextSet tables must match",
          by simp [ctxUnion, ContextSet.add, h]⟩⟩
  · intro s t h
    simp [ctxUnion, ContextSet.add, h]
  · intro s c h
    simp [ctxUnion, ContextSet.add, h]
  · intro s c h
    simp [ctxUnion, ContextSet.add, h]

/-- Witness for C6: two same-model `ContextSet`s combine without error. -/
theorem c6_union_model_mismatch_witness :
    ctxUnion (.cset ⟨some "country", [1]⟩) (.cset ⟨some "country", [2]⟩)
      = .ok ⟨some "country", [1, 2]⟩ :=
  c6_union_model_mismatch.2.1 ⟨some "country", [1]⟩ ⟨some "country", [2]⟩ rfl

/-- A join argument whose own ids are non-empty (a `ContextSet` operand with
an empty id tuple is the one shape the non-emptiness claim must exclude). -/
def CtxVal.nonEmptyIds : CtxVal → Prop
  | .cset s => s.ids ≠ []
  | _ => True

/-- C7 (counterexample): `+` does not deduplicate: the union of the singleton
set containing id 1 with the context for the same row yields a `ContextSet`
whose id tuple `(1, 1)` contains a duplicate. -/
theorem c7_union_duplicates :
    ctxUnion (.cset ⟨some "m", [1]⟩) (.cset ⟨some "m", [1]⟩) = .ok ⟨some "m", [1, 1]⟩ ∧
      ¬ ([1, 1] : List Nat).Nodup := by
  exact ⟨rfl, by decide⟩

/-- C7 (amended): every `ContextSet` produced by `ContextSet.join` has
duplicate-free, zero-free, non-empty ids (the empty result is returned as
Python `None` instead); a `ContextSet` produced by `+` is non-empty whenever
its left operand is, but its ids may contain duplicates. -/
theorem c7_contextset_invariants :
    (∀ (args : List CtxVal) (s : ContextSet),
      ContextSet.join args = .ok (some s) →
        s.ids ≠ [] ∧ s.ids.Nodup ∧ 0 ∉ s.ids) ∧
    (∀ (a b : CtxVal) (s : ContextSet),
      ctxUnion a b = .ok s → a.nonEmptyIds → s.ids ≠ []) := by
  constructor
  · intro args s h
    match args with
    | [] => exact absurd h (by simp [ContextSet.join])
    | c₀ :: rest =>
      simp only [ContextSet.join] at h
      split at h
      · exact absurd h (by simp)
      · split at h
        · exact absurd h (by simp)
        · split at h
          · exact absurd h (by simp)
          · split at h
            · rename_i hret
              have hs := h
              simp only [Except.ok.injEq, Option.some.injEq] at hs
              subst hs
              refine ⟨fun hnil => hret (by rw [List.length_eq_zero]; exact hnil), ?_, ?_⟩
              · exact List.Nodup.filter _ (foldl_joinCollect_nodup _ List.nodup_nil)
              · intro h0
                have := List.of_mem_filter h0
                simp at this
            · exact absurd h (by simp)
  · intro a b s h ha
    match a with
    | .ctx c =>
      have hs : s = c.add b := by
        rw [ctxUnion] at h; cases h; rfl
      subst hs
      cases b <;> simp [Context.add]
    | .cset t =>
      match b with
      | .cset u =>
        rw [ctxUnion, ContextSet.add] at h
        by_cases hmod : t.model = u.model
        · rw [if_neg (by simpa using hmod)] at h
          have hs : s = ⟨t.model, t.ids ++ u.ids⟩ := by cases h; rfl
          subst hs
          simp only [CtxVal.nonEmptyIds] at ha
          simp [ha]
        · rw [if_pos (by simpa using hmod)] at h
          exact absurd h (by simp)
      | .ctx c =>
        rw [ctxUnion, ContextSet.add] at h
        by_cases hmod : t.model = c.model
        · rw [if_neg (by simpa using hmod)] at h; exact absurd h (by simp)
        · rw [if_pos (by simpa using hmod)] at h; exact absurd h (by simp)
      | .raw n =>
        rw [ctxUnion, ContextSet.add] at h
        exact absurd h (by simp)
    | .raw n => exact absurd h (by simp [ctxUnion])

/-- Witness for C7: a join of a zero id, a duplicated id 3 and a context with
id 3 produces a duplicate-free, zero-free, non-empty `ContextSet`. -/
theorem c7_contextset_invariants_witness :
    ContextSet.join [.ctx ⟨some "m", 0⟩, .cset ⟨some "m", [3, 3]⟩] = .ok (some ⟨some "m", [3]⟩) ∧
      ([3] : List Nat) ≠ [] ∧ ([3] : List Nat).Nodup ∧ 0 ∉ ([3] : List Nat) :=
  ⟨rfl, c7_contextset_invariants.1 [.ctx ⟨some "m", 0⟩, .cset ⟨some "m", [3, 3]⟩]
    ⟨some "m", [3]⟩ rfl⟩

theorem join_cons_eq (c₀ : CtxVal) (rest : List CtxVal)
    (h : ∀ v ∈ c₀ :: rest, v.isRaw = false) :
    ContextSet.join (c₀ :: rest) =
      if ((((c₀ :: rest).map CtxVal.modelD).foldl pySetInsert []).length ≠ 1) then
        .error (.valueError "ContextSet.join requires contexts with the same model")
      else
        if (((c₀ :: rest).foldl joinCollect []).filter (fun n => n ≠ 0)).length ≠ 0 then
          .ok (some ⟨c₀.modelD,
            ((c₀ :: rest).foldl joinCollect []).filter (fun n => n ≠ 0)⟩)
        else .ok none := by
  have hm := mapM_modelOf_ok h
  have hm0 : c₀.modelOf = .ok c₀.modelD := by
    cases c₀ with
    | ctx c => rfl
    | cset s => rfl
    | raw k => exact absurd (h _ (List.mem_cons_self _ _)) (by simp [CtxVal.isRaw])
  simp only [ContextSet.join, hm, hm0]

theorem models_length_one_iff (c₀ : CtxVal) (rest : List CtxVal) :
    ((((c₀ :: rest).map CtxVal.modelD).foldl pySetInsert []).length = 1) ↔
      ∀ u ∈ c₀ :: rest, ∀ v ∈ c₀ :: rest, u.modelD = v.modelD := by
  rw [foldl_pySetInsert_length_one (by simp)]
  constructor
  · intro h u hu v hv
    exact h _ (List.mem_map_of_mem _ hu) _ (List.mem_map_of_mem _ hv)
  · intro h x hx y hy
    obtain ⟨u, hu, rfl⟩ := List.mem_map.mp hx
    obtain ⟨v, hv, rfl⟩ := List.mem_map.mp hy
    exact h u hu v hv

theorem filter_nonzero_nil_iff (args : List CtxVal) :
    ((args.foldl joinCollect []).filter (fun n => n ≠ 0) = []) ↔
      ∀ n ∈ rawIds args, n = 0 := by
  rw [List.filter_eq_nil_iff]
  constructor
  · intro h n hn
    have hmem : n ∈ args.foldl joinCollect [] :=
      (foldl_joinCollect_mem args [] n).mpr (Or.inr hn)
    have := h n hmem
    simpa using this
  · intro h n hn
    have : n ∈ rawIds args := by
      have := (foldl_joinCollect_mem args [] n).mp hn
      simpa using this
    simp [h n this]

/-- C10: `ContextSet.join` raises `ValueError` exactly when it receives no
context or contexts of differing models; otherwise it deduplicates the ids of
its arguments, silently drops every falsy id (id `0`, the id of the global
context), returns Python `None` when no truthy id remains, and otherwise
returns the `ContextSet` of the surviving ids tagged with the first
argument's model. -/
theorem c10_join_functional (args : List CtxVal) (h : ∀ v ∈ args, v.isRaw = false) :
    ((∃ e, ContextSet.join args = .error e) ↔
      (args = [] ∨ ∃ u ∈ args, ∃ v ∈ args, u.modelD ≠ v.modelD)) ∧
    (ContextSet.join args = .ok none ↔
      (args ≠ [] ∧ (∀ u ∈ args, ∀ v ∈ args, u.modelD = v.modelD) ∧
        ∀ n ∈ rawIds args, n = 0)) ∧
    (∀ s, ContextSet.join args = .ok (some s) →
      s.ids.Nodup ∧ s.ids ≠ [] ∧
      (∀ n, n ∈ s.ids ↔ (n ≠ 0 ∧ n ∈ rawIds args)) ∧
      ∃ c₀ rest, args = c₀ :: rest ∧ s.model = c₀.modelD) := by
  match args with
  | [] =>
    refine ⟨by simp [ContextSet.join], by simp [ContextSet.join], ?_⟩
    intro s hs
    exact absurd hs (by simp [ContextSet.join])
  | c₀ :: rest =>
    rw [join_cons_eq c₀ rest h]
    by_cases hall : ∀ u ∈ c₀ :: rest, ∀ v ∈ c₀ :: rest, u.modelD = v.modelD
    · have hlen := (models_length_one_iff c₀ rest).mpr hall
      rw [if_neg (not_not_intro hlen)]
      by_cases hzero : ∀ n ∈ rawIds (c₀ :: rest), n = 0
      · have hnil := (filter_nonzero_nil_iff (c₀ :: rest)).mpr hzero
        rw [if_neg (not_not_intro (by rw [hnil]; rfl))]
        refine ⟨?_, ?_, ?_⟩
        · refine iff_of_false (by rintro ⟨e, he⟩; exact Except.noConfusion he) ?_
          rintro (hc | ⟨u, hu, v, hv, hne⟩)
          · exact List.cons_ne_nil _ _ hc
          · exact hne (hall u hu v hv)
        · exact iff_of_true rfl ⟨List.cons_ne_nil _ _, hall, hzero⟩
        · intro s hs
          injection hs with h1
          exact Option.noConfusion h1
      · have hne' : ((c₀ :: rest).foldl joinCollect []).filter (fun n => n ≠ 0) ≠ [] :=
          fun hc => hzero ((filter_nonzero_nil_iff (c₀ :: rest)).mp hc)
        rw [if_pos (fun hc => hne' (List.length_eq_zero.mp hc))]
        refine ⟨?_, ?_, ?_⟩
        · refine iff_of_false (by rintro ⟨e, he⟩; exact Except.noConfusion he) ?_
          rintro (hc | ⟨u, hu, v, hv, hnem⟩)
          · exact List.cons_ne_nil _ _ hc
          · exact hnem (hall u hu v hv)
        · refine iff_of_false ?_ (fun hc => hzero hc.2.2)
          intro hc
          rw [Except.ok.injEq] at hc
          exact Option.noConfusion hc
        · intro s hs
          injection hs with h1
          injection h1 with h2
          subst h2
          refine ⟨List.Nodup.filter _ (foldl_joinCollect_nodup _ List.nodup_nil), hne', ?_, ?_⟩
          · intro n
            simp only [List.mem_filter, foldl_joinCollect_mem, List.not_mem_nil, false_or,
              decide_eq_true_eq]
            tauto
          · exact ⟨c₀, rest, rfl, rfl⟩
    · have hlen : ¬ ((((c₀ :: rest).map CtxVal.modelD).foldl pySetInsert []).length = 1) :=
        fun hc => hall ((models_length_one_iff c₀ rest).mp hc)
      rw [if_pos hlen]
      refine ⟨?_, ?_, ?_⟩
      · refine iff_of_true ⟨_, rfl⟩ (Or.inr ?_)
        by_contra hc
        push_neg at hc
        exact hall hc
      · exact iff_of_false (fun hc => Except.noConfusion hc) (fun hc => hall hc.2.1)
      · intro s hs
        exact Except.noConfusion hs

/-- Witness for C10: joining a context with the falsy global id 0 and a set
with a duplicated id 3 yields the deduplicated, zero-free set. -/
theorem c10_join_functional_witness :
    ContextSet.join [.ctx ⟨some "m", 0⟩, .cset ⟨some "m", [3, 3]⟩]
        = .ok (some ⟨some "m", [3]⟩) ∧
      (3 ∈ ([3] : List Nat) ↔ (3 ≠ 0 ∧ 3 ∈ rawIds [.ctx ⟨some "m", 0⟩, .cset ⟨some "m", [3, 3]⟩])) :=
  ⟨rfl,
    ((c10_join_functional [.ctx ⟨some "m", 0⟩, .cset ⟨some "m", [3, 3]⟩]
      (by decide)).2.2 ⟨some "m", [3]⟩ rfl).2.2.1 3⟩

/-! Embedding of the persisted store and the facade operations of `auth.py`.
Rows of the four relations keep the column order of `models.define_tables`.
Name lookups (`scalar_one_or_none` on a unique column) are embedded as
first-match searches. -/

/-- A row of the permission table: integer id, unique name, `is_global`. -/
structure PermRow where
  id : Nat
  name : String
  is_global : Bool
deriving DecidableEq, Repr

/-- A row of the role table: integer id, unique name, optional comma-joined
`tables` whitelist. -/
structure RoleRow where
  id : Nat
  name : String
  tables : Option String
deriving DecidableEq, Repr

/-- A row of the `rolegrants` table: `(usergroup_id, role_id, context_id,
context_table)`. -/
structure GrantRow where
  usergroup_id : Nat
  role_id : Nat
  context_id : Nat
  context_table : String
deriving DecidableEq, Repr

/-- The persisted store consumed by the `Auth` facade: permission and role
rows, the `roles_permissions` association `(role_id, permission_id)`, the
`rolegrants` rows and the `memberships` association
`(usergroup_id, user_id)`.  `nextId` models the database id allocator for
rows created by the get-or-create helpers. -/
structure AuthState where
  permissions : List PermRow
  roles : List RoleRow
  role_permission : List (Nat × Nat)
  rolegrant : List GrantRow
  membership : List (Nat × Nat)
  nextId : Nat
deriving DecidableEq, Repr

/-- `Auth._get_role`: look a role up by its unique name. -/
def AuthState.getRole (s : AuthState) (name : String) : Option RoleRow :=
  s.roles.find? (fun r => r.name = name)

/-- Lookup of a permission row by its unique name (the select used by
`Auth._get_or_create_permission`). -/
def AuthState.getPermByName (s : AuthState) (name : String) : Option PermRow :=
  s.permissions.find? (fun p => p.name = name)

/-- `Auth._user_groups`: the set of group ids the user belongs to. -/
def AuthState.userGroups (s : AuthState) (userId : Nat) : List Nat :=
  (((s.membership.filter (fun m => m.2 = userId)).map (fun m => m.1)).foldl pySetInsert [])

/-- `Auth._perms_to_roles` composed with `Auth._resolve_permission`: the set
of ids of the roles associated with the permission name through
`roles_permissions` (empty when the name is unknown). -/
def AuthState.resolvePermission (s : AuthState) (permName : String) : List Nat :=
  (((s.role_permission.filter (fun rp =>
      (s.permissions.find? (fun p => p.id = rp.2)).map PermRow.name = some permName)).map
    (fun rp => rp.1)).foldl pySetInsert [])

/-- `Auth._global_permissions`: the names of the permissions flagged
`is_global`. -/
def AuthState.globalPermissions (s : AuthState) : List String :=
  (((s.permissions.filter (fun p => p.is_global)).map PermRow.name).foldl pySetInsert [])

/-- `Auth._contextual_roles`: the set of role ids granted to the group in the
given context. -/
def AuthState.contextualRoles (s : AuthState) (groupId : Nat) (ctx : Context) : List Nat :=
  (((s.rolegrant.filter (fun g =>
      g.usergroup_id = groupId ∧ g.context_id = ctx.id ∧ g.context_table = ctx.table)).map
    GrantRow.role_id).foldl pySetInsert [])

/-- `Auth._has_any_role`: the source evaluates `bool(result.scalar())` where
the scalar is the `usergroup_id` column of the first row matching
`usergroup_id IN group_ids AND role_id IN role_ids` (or `None` when no row
matches), so a first-matching row whose group id is 0 also yields `False`. -/
def AuthState.hasAnyRole (s : AuthState) (groupIds roleIds : List Nat) : Bool :=
  match s.rolegrant.find? (fun g => g.usergroup_id ∈ groupIds ∧ g.role_id ∈ roleIds) with
  | none => false
  | some g => g.usergroup_id ≠ 0

/-- Python truthiness of the optional `tables` whitelist string: `None` and
the empty string are falsy. -/
def truthyStr : Option String → Bool
  | none => false
  | some t => t ≠ ""

/-- `Auth.grant(user_group, role_name, context)` for a group operand (for a
user operand the source first materializes the personal group and then takes
this same path).  Raises `PermissionGrantError` when the role does not exist
or when its truthy `tables` whitelist does not contain the context's table;
otherwise inserts the grant row unless it is already present, returning
`True` on insertion and `False` otherwise.  The raise precedes any insert,
so the error result carries no modified store. -/
def AuthState.grant (s : AuthState) (userGroupId : Nat) (roleName : String)
    (ctx : Context) : Except PyErr (AuthState × Option Bool) :=
  match s.getRole roleName with
  | none => .error (.permissionGrantError ("Role " ++ roleName ++ " does not exist"))
  | some role =>
    if truthyStr role.tables ∧ ctx.table ∉ (role.tables.getD "").splitOn "," then
      .error (.permissionGrantError
        ("Role " ++ roleName ++ " cannot be granted to table " ++ ctx.table))
    else
      if (⟨userGroupId, role.id, ctx.id, ctx.table⟩ : GrantRow) ∈ s.rolegrant then
        .ok (s, some false)
      else
        .ok ({ s with rolegrant :=
          s.rolegrant ++ [⟨userGroupId, role.id, ctx.id, ctx.table⟩] }, some true)

/-- `Auth._get_or_create_role`: find the role by name, or create it with a
fresh id and no whitelist. -/
def AuthState.getOrCreateRole (s : AuthState) (name : String) : AuthState × RoleRow :=
  match s.getRole name with
  | some r => (s, r)
  | none =>
    (⟨s.permissions, s.roles ++ [⟨s.nextId, name, none⟩], s.role_permission,
      s.rolegrant, s.membership, s.nextId + 1⟩, ⟨s.nextId, name, none⟩)

/-- `Auth._get_or_create_permission`: find the permission by name, or create
it with a fresh id and the default `is_global = False`. -/
def AuthState.getOrCreatePermission (s : AuthState) (name : String) : AuthState × PermRow :=
  match s.getPermByName name with
  | some p => (s, p)
  | none =>
    (⟨s.permissions ++ [⟨s.nextId, name, false⟩], s.roles, s.role_permission,
      s.rolegrant, s.membership, s.nextId + 1⟩, ⟨s.nextId, name, false⟩)

/-- The body of the loop of `Auth.assign`: get or create the permission and
insert the `(role_id, permission_id)` association unless present. -/
def assignStep (roleId : Nat) (st : AuthState) (pn : String) : AuthState :=
  let q := st.getOrCreatePermission pn
  if (roleId, q.2.id) ∈ q.1.role_permission then q.1
  else ⟨q.1.permissions, q.1.roles, q.1.role_permission ++ [(roleId, q.2.id)],
    q.1.rolegrant, q.1.membership, q.1.nextId⟩

/-- `Auth.assign(role_name, *permission_name)`: associate each permission
(created on demand) with the role (created on demand).  The Python function
has no `return` statement, so its value is `None`. -/
def AuthState.assign (s : AuthState) (roleName : String) (permNames : List String) :
    AuthState × Option Bool :=
  (permNames.foldl (assignStep (s.getOrCreateRole roleName).2.id)
    (s.getOrCreateRole roleName).1, none)

/-- The loop of `Auth.set_permission_global` that adds a missing permission
with the requested flag. -/
def addPermStep (isG : Bool) (st : AuthState) (n : String) : AuthState :=
  ⟨st.permissions ++ [⟨st.nextId, n, isG⟩], st.roles, st.role_permission,
    st.rolegrant, st.membership, st.nextId + 1⟩

/-- `Auth.set_permission_global(is_global, *permission_name)`: set the flag
on every existing permission carrying one of the names, then create, with
the flag, a permission for every name of the set difference
`set(permission_name) - existing names`.  No `return` statement: the Python
value is `None`. -/
def AuthState.setPermissionGlobal (s : AuthState) (isG : Bool)
    (permNames : List String) : AuthState × Option Bool :=
  let updated := s.permissions.map (fun p =>
    if p.name ∈ permNames then ⟨p.id, p.name, isG⟩ else p)
  let existingNames := (s.permissions.filter (fun p => p.name ∈ permNames)).map PermRow.name
  let missing := (permNames.foldl pySetInsert []).filter (fun n => n ∉ existingNames)
  (missing.foldl (addPermStep isG)
    ⟨updated, s.roles, s.role_permission, s.rolegrant, s.membership, s.nextId⟩, none)

/-- `checkers.Global.__call__`: when the permission is flagged global, return
`_has_any_role(group_ids, role_ids)`; otherwise return whether some group
holds, at the global context `(global, 0)`, a role among `role_ids`. -/
def globalCall (s : AuthState) (perm : String) (groupIds roleIds : List Nat) : Bool :=
  if perm ∈ s.globalPermissions then s.hasAnyRole groupIds roleIds
  else groupIds.any (fun g =>
    (s.contextualRoles g GLOBAL_CONTEXT).any (fun r => r ∈ roleIds))

/-! Lemmas about first-match lookups and the store operations. -/

theorem find?_append_some {α : Type} {p : α → Bool} {l₁ : List α} (l₂ : List α) {a : α}
    (h : l₁.find? p = some a) : (l₁ ++ l₂).find? p = some a := by
  induction l₁ with
  | nil => cases h
  | cons x xs ih =>
    by_cases hx : p x
    · rw [List.find?_cons_of_pos _ hx] at h
      rw [List.cons_append, List.find?_cons_of_pos _ hx]
      exact h
    · rw [List.find?_cons_of_neg _ hx] at h
      rw [List.cons_append, List.find?_cons_of_neg _ hx]
      exact ih h

theorem find?_append_of_none {α : Type} {p : α → Bool} {l₁ : List α} (l₂ : List α)
    (h : l₁.find? p = none) : (l₁ ++ l₂).find? p = l₂.find? p := by
  induction l₁ with
  | nil => rfl
  | cons x xs ih =>
    by_cases hx : p x
    · rw [List.find?_cons_of_pos _ hx] at h
      cases h
    · rw [List.find?_cons_of_neg _ hx] at h
      rw [List.cons_append, List.find?_cons_of_neg _ hx]
      exact ih h

theorem getOrCreatePermission_rp (s : AuthState) (n : String) :
    (s.getOrCreatePermission n).1.role_permission = s.role_permission := by
  unfold AuthState.getOrCreatePermission
  cases s.getPermByName n <;> rfl

theorem getOrCreatePermission_roles (s : AuthState) (n : String) :
    (s.getOrCreatePermission n).1.roles = s.roles := by
  unfold AuthState.getOrCreatePermission
  cases s.getPermByName n <;> rfl

theorem getOrCreatePermission_perms (s : AuthState) (n : String) :
    ∃ t, (s.getOrCreatePermission n).1.permissions = s.permissions ++ t := by
  unfold AuthState.getOrCreatePermission
  cases s.getPermByName n with
  | none => exact ⟨_, rfl⟩
  | some p => exact ⟨[], (List.append_nil _).symm⟩

theorem getOrCreatePermission_finds (s : AuthState) (n : String) :
    (s.getOrCreatePermission n).1.getPermByName n = some (s.getOrCreatePermission n).2 := by
  unfold AuthState.getOrCreatePermission
  cases hf : s.getPermByName n with
  | some p => exact hf
  | none =>
    show AuthState.getPermByName _ n = _
    unfold AuthState.getPermByName at hf ⊢
    rw [find?_append_of_none _ hf, List.find?_cons_of_pos _ (by simp)]

theorem assignStep_roles (rid : Nat) (st : AuthState) (pn : String) :
    (assignStep rid st pn).roles = st.roles := by
  simp only [assignStep]
  split
  · exact getOrCreatePermission_roles st pn
  · exact getOrCreatePermission_roles st pn

theorem assignStep_perm_stable (rid : Nat) (st : AuthState) (pn n : String) {p : PermRow}
    (h : st.getPermByName n = some p) :
    (assignStep rid st pn).getPermByName n = some p := by
  obtain ⟨t, ht⟩ := getOrCreatePermission_perms st pn
  have hq : (st.getOrCreatePermission pn).1.getPermByName n = some p := by
    unfold AuthState.getPermByName at h ⊢
    rw [ht]
    exact find?_append_some _ h
  simp only [assignStep]
  split
  · exact hq
  · exact hq

theorem assignStep_mem_stable (rid : Nat) (st : AuthState) (pn : String) {a : Nat × Nat}
    (h : a ∈ st.role_permission) :
    a ∈ (assignStep rid st pn).role_permission := by
  have hq : a ∈ (st.getOrCreatePermission pn).1.role_permission := by
    rw [getOrCreatePermission_rp]; exact h
  simp only [assignStep]
  split
  · exact hq
  · exact List.mem_append_left _ hq

theorem assignStep_establishes (rid : Nat) (st : AuthState) (pn : String) :
    ∃ p, (assignStep rid st pn).getPermByName pn = some p ∧
      (rid, p.id) ∈ (assignStep rid st pn).role_permission := by
  have hq := getOrCreatePermission_finds st pn
  simp only [assignStep]
  split
  · next hmem => exact ⟨_, hq, hmem⟩
  · exact ⟨_, hq, List.mem_append_right _ (List.mem_singleton_self _)⟩

theorem fold_assignStep_roles (rid : Nat) (perms : List String) (st : AuthState) :
    (perms.foldl (assignStep rid) st).roles = st.roles := by
  induction perms generalizing st with
  | nil => rfl
  | cons x xs ih => rw [List.foldl_cons, ih, assignStep_roles]

theorem fold_assignStep_perm_stable (rid : Nat) (perms : List String) {st : AuthState}
    {n : String} {p : PermRow} (h : st.getPermByName n = some p) :
    (perms.foldl (assignStep rid) st).getPermByName n = some p := by
  induction perms generalizing st with
  | nil => exact h
  | cons x xs ih => exact ih (assignStep_perm_stable rid st x n h)

theorem fold_assignStep_mem_stable (rid : Nat) (perms : List String) {st : AuthState}
    {a : Nat × Nat} (h : a ∈ st.role_permission) :
    a ∈ (perms.foldl (assignStep rid) st).role_permission := by
  induction perms generalizing st with
  | nil => exact h
  | cons x xs ih => exact ih (assignStep_mem_stable rid st x h)

theorem fold_assignStep_establishes (rid : Nat) (perms : List String) (st : AuthState) :
    ∀ pn ∈ perms, ∃ p, (perms.foldl (assignStep rid) st).getPermByName pn = some p ∧
      (rid, p.id) ∈ (perms.foldl (assignStep rid) st).role_permission := by
  induction perms generalizing st with
  | nil => intro pn h; cases h
  | cons x xs ih =>
    intro pn hpn
    rcases List.mem_cons.mp hpn with rfl | hmem
    · obtain ⟨p, hp, hm⟩ := assignStep_establishes rid st pn
      exact ⟨p, fold_assignStep_perm_stable rid xs hp, fold_assignStep_mem_stable rid xs hm⟩
    · exact ih (assignStep rid st x) pn hmem

theorem fold_assignStep_id {rid : Nat} {st : AuthState} (perms : List String)
    (h : ∀ pn ∈ perms, ∃ p, st.getPermByName pn = some p ∧
      (rid, p.id) ∈ st.role_permission) :
    perms.foldl (assignStep rid) st = st := by
  induction perms with
  | nil => rfl
  | cons x xs ih =>
    obtain ⟨p, hp, hm⟩ := h x (List.mem_cons_self _ _)
    have hstep : assignStep rid st x = st := by
      have hq1 : st.getOrCreatePermission x = (st, p) := by
        unfold AuthState.getOrCreatePermission
        rw [hp]
      simp only [assignStep, hq1]
      rw [if_pos hm]
    rw [List.foldl_cons, hstep]
    exact ih (fun pn hpn => h pn (List.mem_cons_of_mem _ hpn))

theorem getRole_of_roles_eq {s₁ s₂ : AuthState} (rn : String)
    (h : s₁.roles = s₂.roles) : s₁.getRole rn = s₂.getRole rn := by
  unfold AuthState.getRole
  rw [h]

theorem getOrCreateRole_second (s st : AuthState) (rn : String)
    (h : st.roles = (s.getOrCreateRole rn).1.roles) :
    st.getOrCreateRole rn = (st, (s.getOrCreateRole rn).2) := by
  cases hr : s.getRole rn with
  | some r =>
    have h1 : (s.getOrCreateRole rn).1 = s := by
      unfold AuthState.getOrCreateRole
      rw [hr]
    have h2 : (s.getOrCreateRole rn).2 = r := by
      unfold AuthState.getOrCreateRole
      rw [hr]
    rw [h1] at h
    have hfind : st.getRole rn = some r := by
      rw [getRole_of_roles_eq rn h, hr]
    rw [h2]
    unfold AuthState.getOrCreateRole
    rw [hfind]
  | none =>
    have h1 : (s.getOrCreateRole rn).1.roles = s.roles ++ [⟨s.nextId, rn, none⟩] := by
      unfold AuthState.getOrCreateRole
      rw [hr]
    have h2 : (s.getOrCreateRole rn).2 = ⟨s.nextId, rn, none⟩ := by
      unfold AuthState.getOrCreateRole
      rw [hr]
    have hr' : s.roles.find? (fun r => r.name = rn) = none := hr
    have hfind : st.getRole rn = some (⟨s.nextId, rn, none⟩ : RoleRow) := by
      unfold AuthState.getRole
      rw [h, h1, find?_append_of_none _ hr', List.find?_cons_of_pos _ (by simp)]
    rw [h2]
    unfold AuthState.getOrCreateRole
    rw [hfind]

theorem fold_addPermStep_pred (isG : Bool) (missing : List String) (st : AuthState)
    (P : PermRow → Prop) (hst : ∀ p ∈ st.permissions, P p)
    (hnew : ∀ i n, n ∈ missing → P ⟨i, n, isG⟩) :
    ∀ p ∈ (missing.foldl (addPermStep isG) st).permissions, P p := by
  induction missing generalizing st with
  | nil => exact hst
  | cons x xs ih =>
    rw [List.foldl_cons]
    refine ih (addPermStep isG st x) ?_ (fun i n hn => hnew i n (List.mem_cons_of_mem _ hn))
    intro p hp
    rcases List.mem_append.mp hp with hmem | hmem
    · exact hst p hmem
    · rw [List.mem_singleton.mp hmem]
      exact hnew st.nextId x (List.mem_cons_self _ _)

theorem fold_addPermStep_sub (isG : Bool) (missing : List String) (st : AuthState) :
    ∀ p ∈ st.permissions, p ∈ (missing.foldl (addPermStep isG) st).permissions := by
  induction missing generalizing st with
  | nil => intro p hp; exact hp
  | cons x xs ih =>
    intro p hp
    rw [List.foldl_cons]
    exact ih (addPermStep isG st x) p (List.mem_append_left _ hp)

theorem fold_addPermStep_covers (isG : Bool) (missing : List String) (st : AuthState) :
    ∀ n ∈ missing, ∃ p ∈ (missing.foldl (addPermStep isG) st).permissions, p.name = n := by
  induction missing generalizing st with
  | nil => intro n hn; cases hn
  | cons x xs ih =>
    intro n hn
    rw [List.foldl_cons]
    rcases List.mem_cons.mp hn with rfl | hmem
    · exact ⟨⟨st.nextId, n, isG⟩,
        fold_addPermStep_sub isG xs (addPermStep isG st n) _
          (List.mem_append_right _ (List.mem_singleton_self _)), rfl⟩
    · exact ih (addPermStep isG st x) n hmem

theorem spg_flag_invariant (s : AuthState) (isG : Bool) (perms : List String) :
    ∀ p ∈ (s.setPermissionGlobal isG perms).1.permissions,
      p.name ∈ perms → p.is_global = isG := by
  simp only [AuthState.setPermissionGlobal]
  refine fold_addPermStep_pred isG _ _ _ ?_ ?_
  · intro p hp
    obtain ⟨q, hq, rfl⟩ := List.mem_map.mp hp
    by_cases hname : q.name ∈ perms
    · rw [if_pos hname]
      intro _
      rfl
    · rw [if_neg hname]
      intro hc
      exact absurd hc hname
  · intro i n _ _
    rfl

theorem spg_covers (s : AuthState) (isG : Bool) (perms : List String) :
    ∀ n ∈ perms, ∃ p ∈ (s.setPermissionGlobal isG perms).1.permissions, p.name = n := by
  simp only [AuthState.setPermissionGlobal]
  intro n hn
  by_cases hex : ∃ p ∈ s.permissions, p.name = n
  · obtain ⟨p, hp, hpn⟩ := hex
    refine ⟨if p.name ∈ perms then ⟨p.id, p.name, isG⟩ else p, ?_, ?_⟩
    · exact fold_addPermStep_sub isG _ _ _ (List.mem_map_of_mem _ hp)
    · split <;> exact hpn
  · refine fold_addPermStep_covers isG _ _ n (List.mem_filter.mpr ⟨?_, ?_⟩)
    · exact (foldl_pySetInsert_mem perms [] n).mpr (Or.inr hn)
    · simp only [decide_eq_true_eq]
      intro hc
      obtain ⟨p, hpf, hpn⟩ := List.mem_map.mp hc
      exact hex ⟨p, (List.mem_filter.mp hpf).1, hpn⟩

theorem spg_second (s' : AuthState) (isG : Bool) (perms : List String)
    (h1 : ∀ p ∈ s'.permissions, p.name ∈ perms → p.is_global = isG)
    (h2 : ∀ n ∈ perms, ∃ p ∈ s'.permissions, p.name = n) :
    s'.setPermissionGlobal isG perms = (s', none) := by
  have hmap : s'.permissions.map
      (fun p => if p.name ∈ perms then ⟨p.id, p.name, isG⟩ else p) = s'.permissions := by
    have hcongr : ∀ p ∈ s'.permissions,
        (if p.name ∈ perms then (⟨p.id, p.name, isG⟩ : PermRow) else p) = p := by
      intro p hp
      by_cases hname : p.name ∈ perms
      · rw [if_pos hname]
        have := h1 p hp hname
        cases p
        simp only at this
        rw [this]
      · exact if_neg hname
    calc s'.permissions.map (fun p => if p.name ∈ perms then ⟨p.id, p.name, isG⟩ else p)
        = s'.permissions.map id := List.map_congr_left hcongr
      _ = s'.permissions := List.map_id _
  have hmiss : (perms.foldl pySetInsert []).filter (fun n =>
      n ∉ (s'.permissions.filter (fun p => p.name ∈ perms)).map PermRow.name) = [] := by
    rw [List.filter_eq_nil_iff]
    intro n hn
    have hn' : n ∈ perms := by
      have := (foldl_pySetInsert_mem perms [] n).mp hn
      simpa using this
    obtain ⟨p, hp, hpn⟩ := h2 n hn'
    have hmem : n ∈ (s'.permissions.filter (fun p => p.name ∈ perms)).map PermRow.name :=
      List.mem_map.mpr ⟨p, List.mem_filter.mpr ⟨hp, by simp [hpn, hn']⟩, hpn⟩
    simp [hmem]
  simp only [AuthState.setPermissionGlobal, hmap, hmiss]
  rfl

/-- C4 (counterexample): a re-issued `assign` does not return `False`: the
Python function has no `return` statement, so the second call yields `None`
(even though it leaves the store unchanged). -/
theorem c4_assign_returns_none :
    ((AuthState.assign ⟨[], [], [], [], [], 1⟩ "reader" ["read"]).1.assign
        "reader" ["read"]).2 = none ∧
      (none : Option Bool) ≠ some false :=
  ⟨rfl, by decide⟩

/-- C4 (amended): `grant`, `assign` and `set_permission_global` are
idempotent on the persisted store and never raise on a re-issue of the same
call; the re-issued `grant` returns `False`, while `assign` and
`set_permission_global` have no `return` statement and yield `None` rather
than `False`. -/
theorem c4_idempotent_reissue (s : AuthState) (g : Nat) (rn : String) (ctx : Context)
    (perms : List String) (isG : Bool) :
    (∀ s₁ v, s.grant g rn ctx = .ok (s₁, v) → s₁.grant g rn ctx = .ok (s₁, some false)) ∧
    ((s.assign rn perms).1.assign rn perms = ((s.assign rn perms).1, none)) ∧
    ((s.setPermissionGlobal isG perms).1.setPermissionGlobal isG perms
      = ((s.setPermissionGlobal isG perms).1, none)) := by
  refine ⟨?_, ?_, ?_⟩
  · intro s₁ v h
    unfold AuthState.grant at h
    cases hrole : s.getRole rn with
    | none =>
      simp only [hrole] at h
      cases h
    | some role =>
      simp only [hrole] at h
      by_cases hcond : truthyStr role.tables = true ∧
          ctx.table ∉ (role.tables.getD "").splitOn ","
      · rw [if_pos hcond] at h
        cases h
      · rw [if_neg hcond] at h
        by_cases hmem : (⟨g, role.id, ctx.id, ctx.table⟩ : GrantRow) ∈ s.rolegrant
        · rw [if_pos hmem] at h
          injection h with h1
          injection h1 with h2 h3
          subst h2
          unfold AuthState.grant
          simp only [hrole]
          rw [if_neg hcond, if_pos hmem]
        · rw [if_neg hmem] at h
          injection h with h1
          injection h1 with h2 h3
          subst h2
          have hrole' : ({ s with rolegrant :=
              s.rolegrant ++ [⟨g, role.id, ctx.id, ctx.table⟩] } : AuthState).getRole rn
                = some role := hrole
          unfold AuthState.grant
          simp only [hrole']
          rw [if_neg hcond,
            if_pos (List.mem_append_right s.rolegrant (List.mem_singleton_self _))]
  · unfold AuthState.assign
    have hroles : (perms.foldl (assignStep (s.getOrCreateRole rn).2.id)
        (s.getOrCreateRole rn).1).roles = (s.getOrCreateRole rn).1.roles :=
      fold_assignStep_roles _ perms _
    rw [getOrCreateRole_second s _ rn hroles]
    rw [fold_assignStep_id perms (fold_assignStep_establishes _ perms _)]
  · exact spg_second _ isG perms (spg_flag_invariant s isG perms) (spg_covers s isG perms)

/-- Witness for C4: re-issuing a successful concrete grant returns `False`
and leaves the store unchanged. -/
theorem c4_idempotent_reissue_witness :
    AuthState.grant ⟨[], [⟨7, "reader", none⟩], [], [⟨1, 7, 3, "city"⟩], [], 9⟩ 1 "reader"
        ⟨some "city", 3⟩
      = .ok (⟨[], [⟨7, "reader", none⟩], [], [⟨1, 7, 3, "city"⟩], [], 9⟩, some false) :=
  (c4_idempotent_reissue ⟨[], [⟨7, "reader", none⟩], [], [], [], 9⟩ 1 "reader"
      ⟨some "city", 3⟩ [] false).1
    ⟨[], [⟨7, "reader", none⟩], [], [⟨1, 7, 3, "city"⟩], [], 9⟩ (some true) rfl

/-- C5: `grant` raises `PermissionGrantError` exactly when the named role
does not exist, or the role's `tables` whitelist is truthy (set and
non-empty) and does not contain the context's table; an unset (`None` or
empty) whitelist admits every table.  In this embedding a rejection returns
no store at all — the raise precedes the insert in the source, so no grant
row is written on rejection. -/
theorem c5_grant_rejection (s : AuthState) (g : Nat) (rn : String) (ctx : Context) :
    ((∃ m, s.grant g rn ctx = .error (.permissionGrantError m)) ↔
      (s.getRole rn = none ∨
        ∃ r, s.getRole rn = some r ∧ truthyStr r.tables = true ∧
          ctx.table ∉ (r.tables.getD "").splitOn ",")) ∧
    (∀ r, s.getRole rn = some r → truthyStr r.tables = false →
      ∃ st v, s.grant g rn ctx = .ok (st, v)) := by
  constructor
  · cases hrole : s.getRole rn with
    | none =>
      refine iff_of_true ⟨"Role " ++ rn ++ " does not exist", ?_⟩ (Or.inl rfl)
      unfold AuthState.grant
      rw [hrole]
    | some role =>
      by_cases hcond : truthyStr role.tables = true ∧
          ctx.table ∉ (role.tables.getD "").splitOn ","
      · refine iff_of_true
          ⟨"Role " ++ rn ++ " cannot be granted to table " ++ ctx.table, ?_⟩
          (Or.inr ⟨role, rfl, hcond.1, hcond.2⟩)
        unfold AuthState.grant
        simp only [hrole]
        rw [if_pos hcond]
      · refine iff_of_false ?_ ?_
        · rintro ⟨m, hm⟩
          unfold AuthState.grant at hm
          simp only [hrole] at hm
          rw [if_neg hcond] at hm
          split at hm
          · cases hm
          · cases hm
        · rintro (hc | ⟨r, hr, ht, hn⟩)
          · cases hc
          · injection hr with hr'
            subst hr'
            exact hcond ⟨ht, hn⟩
  · intro r hr ht
    unfold AuthState.grant
    simp only [hr]
    rw [if_neg (fun hc => by simp [ht] at hc)]
    split
    · exact ⟨_, _, rfl⟩
    · exact ⟨_, _, rfl⟩

/-- Witness for C5: a non-existent role is rejected, and a role with no
whitelist may be granted on any table. -/
theorem c5_grant_rejection_witness :
    (∃ m, AuthState.grant ⟨[], [], [], [], [], 5⟩ 1 "reader" ⟨some "city", 3⟩
        = .error (.permissionGrantError m)) ∧
    ∃ st v, AuthState.grant ⟨[], [⟨7, "reader", none⟩], [], [], [], 5⟩ 1 "reader"
        ⟨some "city", 3⟩ = .ok (st, v) :=
  ⟨(c5_grant_rejection ⟨[], [], [], [], [], 5⟩ 1 "reader" ⟨some "city", 3⟩).1.mpr
      (Or.inl rfl),
    (c5_grant_rejection ⟨[], [⟨7, "reader", none⟩], [], [], [], 5⟩ 1 "reader"
        ⟨some "city", 3⟩).2 ⟨7, "reader", none⟩ (by decide) rfl⟩

theorem mem_globalPermissions (s : AuthState) (n : String) :
    n ∈ s.globalPermissions ↔ ∃ p ∈ s.permissions, p.is_global = true ∧ p.name = n := by
  unfold AuthState.globalPermissions
  constructor
  · intro h
    rcases (foldl_pySetInsert_mem _ _ _).mp h with h' | h'
    · cases h'
    · obtain ⟨p, hp, rfl⟩ := List.mem_map.mp h'
      exact ⟨p, (List.mem_filter.mp hp).1, by simpa using (List.mem_filter.mp hp).2, rfl⟩
  · rintro ⟨p, hp, hg, rfl⟩
    refine (foldl_pySetInsert_mem _ _ _).mpr (Or.inr ?_)
    exact List.mem_map_of_mem _ (List.mem_filter.mpr ⟨hp, by simp [hg]⟩)

theorem mem_contextualRoles (s : AuthState) (gid : Nat) (ctx : Context) (r : Nat) :
    r ∈ s.contextualRoles gid ctx ↔
      ∃ row ∈ s.rolegrant, row.usergroup_id = gid ∧ row.context_id = ctx.id ∧
        row.context_table = ctx.table ∧ row.role_id = r := by
  unfold AuthState.contextualRoles
  constructor
  · intro h
    rcases (foldl_pySetInsert_mem _ _ _).mp h with h' | h'
    · cases h'
    · obtain ⟨row, hrow, rfl⟩ := List.mem_map.mp h'
      have hcond := (List.mem_filter.mp hrow).2
      simp only [decide_eq_true_eq] at hcond
      exact ⟨row, (List.mem_filter.mp hrow).1, hcond.1, hcond.2.1, hcond.2.2, rfl⟩
  · rintro ⟨row, hrow, h1, h2, h3, rfl⟩
    refine (foldl_pySetInsert_mem _ _ _).mpr (Or.inr ?_)
    exact List.mem_map_of_mem _ (List.mem_filter.mpr ⟨hrow, by simp [h1, h2, h3]⟩)

theorem hasAnyRole_iff (s : AuthState) (groupIds roleIds : List Nat)
    (h0 : ∀ g ∈ s.rolegrant, g.usergroup_id ≠ 0) :
    s.hasAnyRole groupIds roleIds = true ↔
      ∃ row ∈ s.rolegrant, row.usergroup_id ∈ groupIds ∧ row.role_id ∈ roleIds := by
  unfold AuthState.hasAnyRole
  cases hf : s.rolegrant.find? (fun g => g.usergroup_id ∈ groupIds ∧ g.role_id ∈ roleIds) with
  | none =>
    refine iff_of_false (by simp) ?_
    rintro ⟨row, hrow, hg, hr⟩
    have := List.find?_eq_none.mp hf row hrow
    simp [hg, hr] at this
  | some row =>
    have hmem := List.mem_of_find?_eq_some hf
    have hcond := List.find?_some hf
    simp only [decide_eq_true_eq] at hcond
    refine iff_of_true ?_ ⟨row, hmem, hcond.1, hcond.2⟩
    simp [h0 row hmem]

/-- C9 (counterexample): permission `read` is flagged global and the user's
group 1 holds a role (`helper`, granted on a `country` row), yet
`Global('read')` evaluates to false, because the source intersects with the
roles bearing the permission (`role_ids`, here empty) rather than with "any
role at all". -/
theorem c9_global_counterexample :
    (∃ p ∈ ([⟨1, "read", true⟩] : List PermRow), p.is_global = true ∧ p.name = "read") ∧
    (∃ row ∈ ([⟨1, 10, 7, "country"⟩] : List GrantRow), row.usergroup_id ∈ [1]) ∧
    AuthState.resolvePermission
      ⟨[⟨1, "read", true⟩], [⟨10, "helper", none⟩], [], [⟨1, 10, 7, "country"⟩], [(1, 1)], 20⟩
      "read" = [] ∧
    globalCall
      ⟨[⟨1, "read", true⟩], [⟨10, "helper", none⟩], [], [⟨1, 10, 7, "country"⟩], [(1, 1)], 20⟩
      "read" [1]
      (AuthState.resolvePermission
        ⟨[⟨1, "read", true⟩], [⟨10, "helper", none⟩], [], [⟨1, 10, 7, "country"⟩], [(1, 1)], 20⟩
        "read") = false := by
  refine ⟨⟨⟨1, "read", true⟩, ?_, rfl, rfl⟩, ⟨⟨1, 10, 7, "country"⟩, ?_, ?_⟩, rfl, rfl⟩
  · exact List.mem_singleton_self _
  · exact List.mem_singleton_self _
  · exact List.mem_singleton_self _

/-- C9 (amended): provided every grant row carries a nonzero group id (the
`bool(result.scalar())` idiom of `_has_any_role` reads the `usergroup_id`
column), `Global(permission)` evaluates to true exactly when either the
permission is flagged global and some group of the user holds, in any
context, some role among the `role_ids` passed in (the roles bearing the
permission), or the permission is not flagged global and some group holds a
role among `role_ids` granted at the global context `(global, 0)`. -/
theorem c9_global_eval (s : AuthState) (perm : String) (groupIds roleIds : List Nat)
    (h0 : ∀ g ∈ s.rolegrant, g.usergroup_id ≠ 0) :
    globalCall s perm groupIds roleIds = true ↔
      (((∃ p ∈ s.permissions, p.is_global = true ∧ p.name = perm) ∧
          ∃ row ∈ s.rolegrant, row.usergroup_id ∈ groupIds ∧ row.role_id ∈ roleIds) ∨
        ((¬ ∃ p ∈ s.permissions, p.is_global = true ∧ p.name = perm) ∧
          ∃ row ∈ s.rolegrant, row.usergroup_id ∈ groupIds ∧ row.role_id ∈ roleIds ∧
            row.context_table = "global" ∧ row.context_id = 0)) := by
  unfold globalCall
  by_cases hg : perm ∈ s.globalPermissions
  · rw [if_pos hg, hasAnyRole_iff s groupIds roleIds h0]
    have hflag := (mem_globalPermissions s perm).mp hg
    constructor
    · intro h
      exact Or.inl ⟨hflag, h⟩
    · rintro (⟨_, h⟩ | ⟨hnot, _⟩)
      · exact h
      · exact absurd hflag hnot
  · rw [if_neg hg]
    have hflag : ¬ ∃ p ∈ s.permissions, p.is_global = true ∧ p.name = perm :=
      fun hc => hg ((mem_globalPermissions s perm).mpr hc)
    rw [List.any_eq_true]
    constructor
    · rintro ⟨g, hgmem, hany⟩
      rw [List.any_eq_true] at hany
      obtain ⟨r, hr, hrin⟩ := hany
      obtain ⟨row, hrow, h1, h2, h3, rfl⟩ := (mem_contextualRoles s g GLOBAL_CONTEXT r).mp hr
      refine Or.inr ⟨hflag, row, hrow, ?_, by simpa using hrin, h3, h2⟩
      rw [h1]
      exact hgmem
    · rintro (⟨hf, _⟩ | ⟨_, row, hrow, hgin, hrin, ht, hid⟩)
      · exact absurd hf hflag
      · refine ⟨row.usergroup_id, by simpa using hgin, ?_⟩
        rw [List.any_eq_true]
        refine ⟨row.role_id, ?_, by simpa using hrin⟩
        exact (mem_contextualRoles s row.usergroup_id GLOBAL_CONTEXT row.role_id).mpr
          ⟨row, hrow, rfl, hid, ht, rfl⟩

/-- Witness for C9: a group holding, on a `country` row, a role that bears
the globally-flagged permission `read` makes `Global('read')` true. -/
theorem c9_global_eval_witness :
    globalCall ⟨[⟨1, "read", true⟩], [⟨10, "reader", none⟩], [(10, 1)],
        [⟨2, 10, 7, "country"⟩], [(2, 1)], 11⟩ "read" [2] [10] = true :=
  (c9_global_eval ⟨[⟨1, "read", true⟩], [⟨10, "reader", none⟩], [(10, 1)],
      [⟨2, 10, 7, "country"⟩], [(2, 1)], 11⟩ "read" [2] [10] (by decide)).mpr
    (Or.inl ⟨⟨⟨1, "read", true⟩, List.mem_singleton_self _, rfl, rfl⟩,
      ⟨2, 10, 7, "country"⟩, List.mem_singleton_self _,
        List.mem_singleton_self _, List.mem_singleton_self _⟩)

/-! Embedding of `traversers.recursive_traverse`.  A self-recursive to-one
edge is the parent function of the relationship (`none` models a null
foreign key).  One loop step is `_referent` on the current id set: it
resolves every id's parent and combines them with `ContextSet.join`, which
deduplicates and drops null and falsy (zero) ids, yielding `None` when
nothing survives — the loop's `if not current: break` condition. -/

/-- One iteration of the `while` loop of `recursive_traverse`: the joined,
deduplicated, zero-free parent set of `cur`, or `none` when it is empty. -/
def recStep (parent : Nat → Option Nat) (cur : List Nat) : Option (List Nat) :=
  match ((cur.filterMap parent).foldl pySetInsert []).filter (fun n => n ≠ 0) with
  | [] => none
  | nxt => some nxt

/-- The `while True` loop of `recursive_traverse`, embedded with explicit
fuel: `none` when the loop has not terminated within `fuel` iterations, and
`some steps` — the context sets the loop accumulated into `ret` — when the
break was reached. -/
def recLoop (parent : Nat → Option Nat) : Nat → List Nat → Option (List (List Nat))
  | 0, _ => none
  | fuel + 1, cur =>
    match recStep parent cur with
    | none => some []
    | some nxt => (recLoop parent fuel nxt).map (fun rest => nxt :: rest)

/-- Termination of the `recursive_traverse` loop from a start set: some
amount of fuel suffices. -/
def RecTerminates (parent : Nat → Option Nat) (start : List Nat) : Prop :=
  ∃ fuel, (recLoop parent fuel start).isSome

/-- The n-fold iterate of the resolution step, used to state when a step
first yields no ids. -/
def recIter (parent : Nat → Option Nat) (start : List Nat) : Nat → Option (List Nat)
  | 0 => some start
  | n + 1 =>
    match recIter parent start n with
    | none => none
    | some cur => recStep parent cur

theorem recIter_shift (parent : Nat → Option Nat) {start nxt : List Nat}
    (h : recStep parent start = some nxt) (n : Nat) :
    recIter parent start (n + 1) = recIter parent nxt n := by
  induction n with
  | zero =>
    show (match recIter parent start 0 with
      | none => none
      | some cur => recStep parent cur) = some nxt
    rw [show recIter parent start 0 = some start from rfl]
    exact h
  | succ k ih =>
    show (match recIter parent start (k + 1) with
      | none => none
      | some cur => recStep parent cur) = recIter parent nxt (k + 1)
    rw [ih]
    rfl

/-- C8 (counterexample): on cyclic data the traversal does not terminate:
with the one-row cycle `parent 1 = 1`, every step yields the same singleton
set `(1)`, never an empty one, and no amount of fuel makes the loop of
`recursive_traverse` reach its break. -/
theorem c8_cyclic_divergence :
    ¬ RecTerminates (fun n => if n = 1 then some 1 else none) [1] := by
  rintro ⟨fuel, h⟩
  suffices hall : ∀ f, recLoop (fun n => if n = 1 then some 1 else none) f [1] = none by
    rw [hall fuel] at h
    cases h
  intro f
  induction f with
  | zero => rfl
  | succ k ih =>
    have hstep : recStep (fun n => if n = 1 then some 1 else none) [1] = some [1] := rfl
    simp [recLoop, hstep, ih]

/-- C8 (amended): the loop of `recursive_traverse` terminates exactly when
some iterate of the resolution step yields no ids (a `None`/empty step, as
on a chain of rows ending in a null parent); the stop condition is an empty
step, not the absence of new ids, so cyclic data diverges. -/
theorem c8_recursive_termination (parent : Nat → Option Nat) (start : List Nat) :
    RecTerminates parent start ↔ ∃ n, recIter parent start n = none := by
  constructor
  · rintro ⟨fuel, h⟩
    induction fuel generalizing start with
    | zero => cases h
    | succ k ih =>
      rw [recLoop] at h
      cases hstep : recStep parent start with
      | none =>
        refine ⟨1, ?_⟩
        show (match recIter parent start 0 with
          | none => none
          | some cur => recStep parent cur) = none
        rw [show recIter parent start 0 = some start from rfl]
        exact hstep
      | some nxt =>
        rw [hstep] at h
        have h' : (Option.map (fun rest => nxt :: rest)
            (recLoop parent k nxt)).isSome = true := h
        have hk : (recLoop parent k nxt).isSome := by
          cases hrec : recLoop parent k nxt with
          | none => rw [hrec] at h'; cases h'
          | some v => rfl
        obtain ⟨n, hn⟩ := ih nxt hk
        exact ⟨n + 1, by rw [recIter_shift parent hstep n]; exact hn⟩
  · rintro ⟨n, hn⟩
    induction n generalizing start with
    | zero => cases hn
    | succ k ih =>
      cases hstep : recStep parent start with
      | none =>
        refine ⟨1, ?_⟩
        rw [recLoop, hstep]
        rfl
      | some nxt =>
        rw [recIter_shift parent hstep k] at hn
        obtain ⟨fuel, hfuel⟩ := ih nxt hn
        refine ⟨fuel + 1, ?_⟩
        rw [recLoop, hstep]
        show (Option.map (fun rest => nxt :: rest) (recLoop parent fuel nxt)).isSome = true
        cases hrec : recLoop parent fuel nxt with
        | none => rw [hrec] at hfuel; cases hfuel
        | some v => rfl

/-! Embedding of the query rewriter (`Auth.accessible_query`) and of the
`joins` operations of the checker algebra.  A relationship property is
reduced to the fields the rewriter reads; models map to their single mapped
table, so `prop.target in prop.parent.tables` becomes `target = parent` and
`prop.entity.class_` coincides with the target table. -/

/-- A relationship property (`RelationshipProperty`) as read by the
rewriter: attribute name, parent model's table, and target table (also the
class of the related entity in this single-table embedding). -/
structure Rel where
  key : String
  parent : String
  target : String
deriving DecidableEq, Repr

/-- A WHERE fragment of the rewritten query. -/
inductive Cond
  | litFalse
  | litTrue
  | idIn (table : String) (ids : List Nat)
  | disj (cs : List Cond)

/-- A SQLAlchemy `Select` over one target table, reduced to the parts the
rewriter touches: projected columns, accumulated outer joins, conjoined
WHERE conditions, and the ORDER BY list.  `outerjoin`, `where` and `filter`
are purely additive builders in SQLAlchemy, which the two operations below
mirror. -/
structure Query where
  target : String
  cols : List String
  joins : List Rel
  wheres : List Cond
  order : List String

/-- `Select.outerjoin`: append a left outer join. -/
def Query.outerjoin (q : Query) (r : Rel) : Query :=
  ⟨q.target, q.cols, q.joins ++ [r], q.wheres, q.order⟩

/-- `Select.where` / `Select.filter` (synonyms): append a WHERE condition. -/
def Query.addWhere (q : Query) (c : Cond) : Query :=
  ⟨q.target, q.cols, q.joins, q.wheres ++ [c], q.order⟩

/-- An element of the Python list returned by `checker.joins`:
`Global.joins` yields the literal `True`, `Path.joins` yields the literal
`False` when no context is permitted and relationship properties otherwise;
the consumer additionally probes for the literal `None`, which no checker
produces. -/
inductive JoinItem
  | pytrue
  | pyfalse
  | pynone
  | rel (r : Rel)
deriving DecidableEq, Repr

/-- A value returned by a checker's `where` operation: Python `None`
(`Global.where`), the literals `True`/`False`, an empty list (`Or.where`
with no conditions), or a SQL condition. -/
inductive WhereVal
  | pynone
  | pytrue
  | pyfalse
  | emptyList
  | cond (c : Cond)

/-- `query.filter(value)`: Python booleans are coerced to the SQL literals,
a condition is appended, and a non-SQL value (`None`, a list) raises. -/
def Query.filterW (q : Query) : WhereVal → Except PyErr Query
  | .pyfalse => .ok (q.addWhere .litFalse)
  | .pytrue => .ok (q.addWhere .litTrue)
  | .cond c => .ok (q.addWhere c)
  | .pynone => .error (.typeError "SQL expression element expected, got None")
  | .emptyList => .error (.typeError "SQL expression element expected, got list")

/-- The interface of a checker as consumed by `Auth.can` and
`Auth.accessible_query`: `__call__ (group_ids, role_ids, context)`, `joins
(group_ids, target)` and `where (group_ids, target)` (the `user` argument of
`where` plays no role in the operations embedded here). -/
structure Checker where
  call : List Nat → List Nat → Context → Bool
  joins : List Nat → String → Except PyErr (List JoinItem)
  whereC : List Nat → String → Except PyErr WhereVal

/-- `Auth.accessible_query`: ask the checker for its join list; an empty
list returns the query constrained with `WHERE false`; a list containing the
Python literal `None` returns the query unchanged; otherwise every element
is outer-joined through its `class_attribute` — the boolean literals
`True`/`False` emitted by `Global.joins`/`Path.joins` have no such attribute
and raise `AttributeError` — and finally the checker's WHERE is added with
`filter`. -/
def accessible_query (checker : Checker) (groupIds : List Nat) (q : Query) :
    Except PyErr Query :=
  match checker.joins groupIds q.target with
  | .error e => .error e
  | .ok joins =>
    if joins = [] then .ok (q.addWhere .litFalse)
    else if .pynone ∈ joins then .ok q
    else
      match joins.foldlM (fun acc j =>
        match j with
        | .rel r => Except.ok (acc.outerjoin r)
        | _ => Except.error
            (PyErr.attributeError "bool object has no attribute class_attribute")) q with
      | .error e => .error e
      | .ok q₁ =>
        match checker.whereC groupIds q.target with
        | .error e => .error e
        | .ok w => q₁.filterW w

/-- `Auth.can`: resolve the user's groups and the permission's roles, then
evaluate the checker for `(model, action)`.  The checker resolution is the
action registry populated by the developer (`Auth(actions=...)`); the lazily
synthesized default for a missing pair is not modelled, so the registry
function is total here. -/
def can (s : AuthState) (actions : String → String → Checker) (userId : Nat)
    (action : String) (ctx : Context) : Bool :=
  (actions (ctx.model.getD "global") action).call (s.userGroups userId)
    (s.resolvePermission action) ctx

/-- `Global.joins`: resolve the permission to its role ids and evaluate the
checker itself (target-independently): `[True]` when satisfied, `[]`
otherwise. -/
def globalJoins (s : AuthState) (perm : String) (groupIds : List Nat) : List JoinItem :=
  if globalCall s perm groupIds (s.resolvePermission perm) then [.pytrue] else []

/-- The `Global(permission)` checker wired to a store: `__call__` is
`globalCall`, `joins` is `globalJoins`, `where` returns Python `None`. -/
def globalChecker (s : AuthState) (perm : String) : Checker :=
  ⟨fun groupIds roleIds _ => globalCall s perm groupIds roleIds,
   fun groupIds _ => .ok (globalJoins s perm groupIds),
   fun _ _ => .ok .pynone⟩

/-- `Auth.contexts_by_permission` for a set of group ids: empty when the
groups or the permission's roles are empty; otherwise the non-global grant
rows of any (group ∈ groups, role bearing the permission), grouped by
context table into `ContextSet`s. -/
def contexts_by_permission (s : AuthState) (groupIds : List Nat) (perm : String) :
    List ContextSet :=
  if groupIds = [] ∨ s.resolvePermission perm = [] then []
  else
    let rows := s.rolegrant.filter (fun g =>
      g.usergroup_id ∈ groupIds ∧ g.role_id ∈ s.resolvePermission perm ∧
        g.context_table ≠ "global")
    ((rows.map GrantRow.context_table).foldl pySetInsert []).map (fun t =>
      ⟨some t, (rows.filter (fun g => g.context_table = t)).map GrantRow.context_id⟩)

/-- The relationship metadata consulted by `class_traverse`: the
relationship property of a model (by table name) under an attribute name. -/
def Schema : Type := String → String → Option Rel

/-- `traversers.class_traverse` along a relationship path: look each segment
up in the mapper's relationships and advance to the target's mapper (a
segment that is no relationship would yield its column property and stop;
the rewriter only drives this along relationship paths). -/
def class_traverse (sch : Schema) (cls : String) : List String → List Rel
  | [] => []
  | part :: rest =>
    match sch cls part with
    | none => []
    | some r => r :: class_traverse sch r.target rest

/-- The inner loop of `Path.joins` over the properties of one path:
`rec_join` snapshots the path prefix whenever a step is self-recursive
(target table equals the parent's); when a step's entity has permitted
contexts, the source appends — deduplicated, in order — the `rec_join`
prefix and stops the path, or the whole partial path while continuing. -/
def pathJoinsInner (models : List (Option String)) :
    List Rel → List Rel → Option (List Rel) → List Rel → List Rel
  | [], _, _, ret => ret
  | prop :: rest, partialPath, recJoin, ret =>
    let recJoin₁ := if prop.target = prop.parent then some partialPath else recJoin
    let partialPath₁ := partialPath ++ [prop]
    if some prop.target ∈ models then
      match recJoin₁ with
      | some rj => rj.foldl pySetInsert ret
      | none => pathJoinsInner models rest partialPath₁ none (partialPath₁.foldl pySetInsert ret)
    else
      pathJoinsInner models rest partialPath₁ recJoin₁ ret

/-- `Path.joins`: `[False]` when the permission admits no context at all;
otherwise walk every declared path from the target through
`class_traverse`, collecting join prefixes with `pathJoinsInner` into one
deduplicated list (`paths` carries the flattened dotted paths the source
obtains from `all_paths` of the treefied path set, split on dots). -/
def pathJoins (sch : Schema) (s : AuthState) (perm : String)
    (paths : List (List String)) (groupIds : List Nat) (target : String) :
    List JoinItem :=
  let permitted := contexts_by_permission s groupIds perm
  if permitted = [] then [.pyfalse]
  else
    let models := permitted.map ContextSet.model
    (paths.foldl (fun ret path =>
      pathJoinsInner models (class_traverse sch target path) [] none ret) []).map
      JoinItem.rel

/-- The query-facing side of a `Path(permission, *paths)` checker.  Its
`__call__` and `where` issue live traversal queries through the database and
are irrelevant to the claims below (every claim returns or fails before they
are consulted), so they are parameters here. -/
def pathChecker (sch : Schema) (s : AuthState) (perm : String)
    (paths : List (List String))
    (callOp : List Nat → List Nat → Context → Bool)
    (whereOp : List Nat → String → Except PyErr WhereVal) : Checker :=
  ⟨callOp, fun groupIds target => .ok (pathJoins sch s perm paths groupIds target), whereOp⟩

theorem addWhere_frame {q₁ q : Query} (x : Cond)
    (h1 : q₁.target = q.target) (h2 : q₁.cols = q.cols) (h3 : q₁.order = q.order)
    (h4 : q₁.wheres = q.wheres) (hjs : ∃ js, q₁.joins = q.joins ++ js) :
    (q₁.addWhere x).target = q.target ∧ (q₁.addWhere x).cols = q.cols ∧
      (q₁.addWhere x).order = q.order ∧ (∃ js, (q₁.addWhere x).joins = q.joins ++ js) ∧
      ∃ ws, (q₁.addWhere x).wheres = q.wheres ++ ws :=
  ⟨h1, h2, h3, hjs,
    ⟨[x], by rw [show (q₁.addWhere x).wheres = q₁.wheres ++ [x] from rfl, h4]⟩⟩

theorem foldJoins_frame (items : List JoinItem) (q : Query) {q₁ : Query}
    (h : items.foldlM (fun acc j =>
      match j with
      | .rel r => Except.ok (acc.outerjoin r)
      | _ => Except.error
          (PyErr.attributeError "bool object has no attribute class_attribute")) q
      = .ok q₁) :
    q₁.target = q.target ∧ q₁.cols = q.cols ∧ q₁.order = q.order ∧
      q₁.wheres = q.wheres ∧ ∃ js, q₁.joins = q.joins ++ js := by
  induction items generalizing q with
  | nil =>
    rw [List.foldlM_nil] at h
    injection h with h'
    subst h'
    exact ⟨rfl, rfl, rfl, rfl, ⟨[], by rw [List.append_nil]⟩⟩
  | cons j rest ih =>
    rw [List.foldlM_cons] at h
    cases j with
    | rel r =>
      have h' : rest.foldlM (fun acc j =>
          match j with
          | .rel r => Except.ok (acc.outerjoin r)
          | _ => Except.error
              (PyErr.attributeError "bool object has no attribute class_attribute"))
          (q.outerjoin r) = .ok q₁ := h
      obtain ⟨h1, h2, h3, h4, js, hjs⟩ := ih (q.outerjoin r) h'
      refine ⟨h1, h2, h3, h4, ⟨r :: js, ?_⟩⟩
      rw [hjs, show (q.outerjoin r).joins = q.joins ++ [r] from rfl, List.append_assoc]
      rfl
    | pytrue => exact Except.noConfusion h
    | pyfalse => exact Except.noConfusion h
    | pynone => exact Except.noConfusion h

/-- C3: whenever `accessible_query` returns a query, the caller's target
table, projected columns and ordering are unchanged, and the input's join
list and WHERE list survive as prefixes of the output's: outer joins and
WHERE conditions are only appended, never removed or reordered. -/
theorem c3_accessible_query_frame (c : Checker) (gids : List Nat) (q q' : Query)
    (h : accessible_query c gids q = .ok q') :
    q'.target = q.target ∧ q'.cols = q.cols ∧ q'.order = q.order ∧
      (∃ js, q'.joins = q.joins ++ js) ∧ ∃ ws, q'.wheres = q.wheres ++ ws := by
  unfold accessible_query at h
  split at h
  · cases h
  · rename_i joins hj
    by_cases hnil : joins = []
    · rw [if_pos hnil] at h
      injection h with h'
      subst h'
      exact addWhere_frame _ rfl rfl rfl rfl ⟨[], by rw [List.append_nil]⟩
    · rw [if_neg hnil] at h
      by_cases hnone : JoinItem.pynone ∈ joins
      · rw [if_pos hnone] at h
        injection h with h'
        subst h'
        exact ⟨rfl, rfl, rfl, ⟨[], by rw [List.append_nil]⟩,
          ⟨[], by rw [List.append_nil]⟩⟩
      · rw [if_neg hnone] at h
        split at h
        · cases h
        · rename_i q₁ hf
          split at h
          · cases h
          · rename_i w hw
            obtain ⟨h1, h2, h3, h4, js, hjs⟩ := foldJoins_frame joins q hf
            cases w with
            | pynone => cases h
            | emptyList => cases h
            | pytrue =>
              injection h with h'
              subst h'
              exact addWhere_frame _ h1 h2 h3 h4 ⟨js, hjs⟩
            | pyfalse =>
              injection h with h'
              subst h'
              exact addWhere_frame _ h1 h2 h3 h4 ⟨js, hjs⟩
            | cond cd =>
              injection h with h'
              subst h'
              exact addWhere_frame _ h1 h2 h3 h4 ⟨js, hjs⟩

/-- Witness for C3: a checker whose joins are empty leaves columns, target
and order of a concrete query unchanged and appends only `WHERE false`. -/
theorem c3_accessible_query_frame_witness :
    (Query.mk "person" ["person.id"] [] [.litFalse] ["person.name"]).target
        = (Query.mk "person" ["person.id"] [] [] ["person.name"]).target ∧
      (Query.mk "person" ["person.id"] [] [.litFalse] ["person.name"]).cols
        = (Query.mk "person" ["person.id"] [] [] ["person.name"]).cols ∧
      (Query.mk "person" ["person.id"] [] [.litFalse] ["person.name"]).order
        = (Query.mk "person" ["person.id"] [] [] ["person.name"]).order ∧
      (∃ js, (Query.mk "person" ["person.id"] [] [.litFalse] ["person.name"]).joins
        = (Query.mk "person" ["person.id"] [] [] ["person.name"]).joins ++ js) ∧
      ∃ ws, (Query.mk "person" ["person.id"] [] [.litFalse] ["person.name"]).wheres
        = (Query.mk "person" ["person.id"] [] [] ["person.name"]).wheres ++ ws :=
  c3_accessible_query_frame
    ⟨fun _ _ _ => false, fun _ _ => .ok [], fun _ _ => .ok .pynone⟩ []
    (Query.mk "person" ["person.id"] [] [] ["person.name"])
    (Query.mk "person" ["person.id"] [] [.litFalse] ["person.name"]) rfl

/-- C1 (code bug): with the store of the repository's inverted-query test —
role `manager` (id 10) bears `read` and is granted to the user's group 3 at
the global context `(global, 0)` — and the checker `Global('read')`
registered for the target model (as `tests/test_queries.py` registers it for
`MountPoint`), `can(user, 'read', r)` is true for a `mountpoint` row, yet
`accessible_query` on `select(mountpoint)` raises `AttributeError` instead
of returning a query: `Global.joins` yields `[True]`, which passes the
`None in joins` test and is then outer-joined through `.class_attribute`.
No row `r'` is returned at all, violating P1. -/
theorem c1_can_accessible_query_diverge :
    can ⟨[⟨1, "read", false⟩], [⟨10, "manager", none⟩], [(10, 1)],
        [⟨3, 10, 0, "global"⟩], [(3, 5)], 50⟩
      (fun _ _ => globalChecker ⟨[⟨1, "read", false⟩], [⟨10, "manager", none⟩], [(10, 1)],
        [⟨3, 10, 0, "global"⟩], [(3, 5)], 50⟩ "read") 5 "read" ⟨some "mountpoint", 8⟩
      = true ∧
    accessible_query (globalChecker ⟨[⟨1, "read", false⟩], [⟨10, "manager", none⟩],
        [(10, 1)], [⟨3, 10, 0, "global"⟩], [(3, 5)], 50⟩ "read")
      (AuthState.userGroups ⟨[⟨1, "read", false⟩], [⟨10, "manager", none⟩], [(10, 1)],
        [⟨3, 10, 0, "global"⟩], [(3, 5)], 50⟩ 5)
      ⟨"mountpoint", ["mountpoint.id", "mountpoint.name"], [], [], []⟩
      = .error (.attributeError "bool object has no attribute class_attribute") :=
  ⟨rfl, rfl⟩

/-- C2 (code bug): the three degenerate join shapes of `accessible_query`.
With no permitted context at all, `Path.joins` returns `[False]` and the
rewrite raises `AttributeError` instead of producing `WHERE false` (the
shape `tests/test_queries.py::test_accessible_query_tree` expects); with a
satisfied `Global`, joins are `[True]` and the rewrite raises instead of
returning the query unchanged; only the empty join list (permitted contexts
exist but no declared path reaches them) yields `WHERE false` as specified. -/
theorem c2_degenerate_joins :
    pathJoins (fun cls attr =>
        if cls = "person" ∧ attr = "city" then some ⟨"city", "person", "city"⟩ else none)
      ⟨[⟨1, "write", false⟩], [⟨20, "editor", none⟩], [(20, 1)],
        [⟨4, 30, 6, "hobby"⟩], [(4, 9)], 60⟩ "write" [["city"]] [4] "person"
      = [.pyfalse] ∧
    accessible_query
      (pathChecker (fun cls attr =>
          if cls = "person" ∧ attr = "city" then some ⟨"city", "person", "city"⟩ else none)
        ⟨[⟨1, "write", false⟩], [⟨20, "editor", none⟩], [(20, 1)],
          [⟨4, 30, 6, "hobby"⟩], [(4, 9)], 60⟩ "write" [["city"]]
        (fun _ _ _ => false) (fun _ _ => .ok .pynone))
      [4] ⟨"person", ["person.id"], [], [], []⟩
      = .error (.attributeError "bool object has no attribute class_attribute") ∧
    globalJoins ⟨[⟨1, "read", false⟩], [⟨10, "manager", none⟩], [(10, 1)],
        [⟨3, 10, 0, "global"⟩], [(3, 5)], 50⟩ "read" [3] = [.pytrue] ∧
    accessible_query (globalChecker ⟨[⟨1, "read", false⟩], [⟨10, "manager", none⟩],
        [(10, 1)], [⟨3, 10, 0, "global"⟩], [(3, 5)], 50⟩ "read")
      [3] ⟨"person", ["person.id"], [], [], []⟩
      = .error (.attributeError "bool object has no attribute class_attribute") ∧
    accessible_query
      (pathChecker (fun cls attr =>
          if cls = "person" ∧ attr = "city" then some ⟨"city", "person", "city"⟩ else none)
        ⟨[⟨1, "read", false⟩], [⟨30, "reader", none⟩], [(30, 1)],
          [⟨4, 30, 6, "hobby"⟩], [(4, 9)], 60⟩ "read" [["city"]]
        (fun _ _ _ => false) (fun _ _ => .ok .pynone))
      [4] ⟨"person", ["person.id"], [], [], []⟩
      = .ok ((Query.mk "person" ["person.id"] [] [] []).addWhere .litFalse) :=
  ⟨rfl, rfl, rfl, rfl, rfl⟩

end JsAuth
